import Mathlib

/-!
Shallow embedding of the LlamaMoE gating module
(`smoe/modules/moefication/moe_gates.py`) and of the clustering-distribution
tally (`smoe/entrypoint/analysis/clustering_distribution.py`).

Tensors are embedded as lists of rationals (`List ℚ` for vectors,
`List (List ℚ)` for row-major matrices); exact rational arithmetic stands in
for the floating-point arithmetic of the source.  The transcendental
primitives used by the source (`exp` inside `nn.Softmax`, `tanh`,
`nn.Softplus`, the standard-normal CDF of `Normal(0, 1)`) are abstracted as a
parameter record `Analytic`, since their exact real values are not rational;
theorems that depend on their behaviour assume only the properties the real
functions satisfy (e.g. positivity of `exp`).  The Gaussian sample drawn by
`torch.randn_like` is passed in explicitly as a function of the element
position, making the stochastic computation a deterministic function of the
draw.  Fallible tensor operations (`torch.gather` bounds checks, the
`torch.mm` argument type check) are embedded in `Except String`.
-/

namespace LlamaMoE

/-- Dot product of two rational vectors (zip-truncating, as both operands
always have equal length at every use site). -/
def dotQ (a b : List ℚ) : ℚ := ((a.zip b).map (fun p => p.1 * p.2)).sum

/-- `F.linear(x, W)` for one input row: the matrix `W` is stored row-major
with shape (out_features, in_features), so entry `j` of the output is the dot
product of row `j` of `W` with `x`.  Bias-free, as every `nn.Linear` in the
gate is constructed with `bias=False`. -/
def linApp (W : List (List ℚ)) (x : List ℚ) : List ℚ := W.map (fun row => dotQ row x)

/-- A bias-free linear layer applied to a batch of rows. -/
def linMap (W : List (List ℚ)) (x : List (List ℚ)) : List (List ℚ) := x.map (linApp W)

/-- An all-zeros matrix with `r` rows and `c` columns, as produced by
`nn.init.zeros_`. -/
def zerosM (r c : Nat) : List (List ℚ) := List.replicate r (List.replicate c 0)

/-- The transcendental scalar primitives the gate uses, abstracted as
parameters: `exp` (inside `nn.Softmax`), `tanh` (the MLP nonlinearity),
`softplus` (`nn.Softplus`, v ↦ ln(1 + e^v)) and `cdf` (the standard normal
cumulative distribution function of `Normal(0.0, 1.0)`).  They are not
rational-valued in reality, so the embedding is parameterized over them;
theorems assume only properties the real functions enjoy. -/
structure Analytic where
  exp : ℚ → ℚ
  tanh : ℚ → ℚ
  softplus : ℚ → ℚ
  cdf : ℚ → ℚ

/-- `nn.Softmax(1)` applied to one row: each entry `v` becomes
`exp v / Σ exp`. -/
def softmaxQ (A : Analytic) (xs : List ℚ) : List ℚ :=
  xs.map (fun v => A.exp v / (xs.map A.exp).sum)

/-- The two gate-network variants built by `get_gate_network`:
a single bias-free linear layer, or Linear → Tanh → Linear. -/
inductive GateNetwork where
  | linear (weight : List (List ℚ))
  | mlp (w1 w2 : List (List ℚ))
deriving DecidableEq

/-- Applying the gate network to one input row (`self.gate_network(x)`). -/
def GateNetwork.apply (A : Analytic) : GateNetwork → List ℚ → List ℚ
  | .linear W, x => linApp W x
  | .mlp w1 w2, x => linApp w2 ((linApp w1 x).map A.tanh)

/-- Output width of the gate network (the row count of its last weight
matrix); `GateNetwork.apply` always returns this many entries. -/
def GateNetwork.outLen : GateNetwork → Nat
  | .linear W => W.length
  | .mlp _ w2 => w2.length

/-- Python `str.lower()`: lower-case every character (expressed over the
character list so that it evaluates by kernel reduction). -/
def pyLower (s : String) : String := String.mk (s.data.map Char.toLower)

/-- `get_gate_network(gate_type, input_size, num_experts)`: lower-cases the
type string, builds a zero-initialized linear gate or an MLP gate, and raises
`ValueError` (embedded as `Except.error`) on any other string.  The MLP
weights are default-initialized by PyTorch with random values; that random
draw is abstracted as the two parameters `mlpW1 mlpW2`. -/
def get_gate_network (gate_type : String) (input_size num_experts : Nat)
    (mlpW1 mlpW2 : List (List ℚ)) : Except String GateNetwork :=
  let gt := pyLower gate_type
  if gt = "linear" then .ok (.linear (zerosM num_experts input_size))
  else if gt = "mlp" then .ok (.mlp mlpW1 mlpW2)
  else .error ("ValueError: Expected gate_type in (linear, mlp), got " ++ gt)

/-- The `TopKBalancedNoisyGate` module state: static configuration, the gate
network, the `weight_noise` linear projection (stored as its weight matrix,
shape (num_experts, input_size)), and the `training` flag inherited from
`nn.Module` (PyTorch modules start in training mode). -/
structure TopKBalancedNoisyGate where
  input_size : Nat
  num_experts : Nat
  num_selects : Nat
  gate_network : GateNetwork
  use_balance : Bool
  add_noise : Bool
  use_softmax : Bool
  weight_noise : List (List ℚ)
  training : Bool
deriving DecidableEq

/-- `TopKBalancedNoisyGate.__init__`: asserts `num_selects <= num_experts`
(an `AssertionError` otherwise), builds the gate network through
`get_gate_network` (which may raise `ValueError`), creates the
`weight_noise` linear layer and zeroes its weight via `reset_parameters`.
A new module is in training mode. -/
def TopKBalancedNoisyGate.init (input_size num_experts num_selects : Nat)
    (gate_type : String) (use_balance add_noise use_softmax : Bool)
    (mlpW1 mlpW2 : List (List ℚ)) : Except String TopKBalancedNoisyGate :=
  if num_experts < num_selects then
    .error "AssertionError: num_selects <= num_experts"
  else
    match get_gate_network gate_type input_size num_experts mlpW1 mlpW2 with
    | .error e => .error e
    | .ok gn =>
        .ok { input_size := input_size, num_experts := num_experts,
              num_selects := num_selects, gate_network := gn,
              use_balance := use_balance, add_noise := add_noise,
              use_softmax := use_softmax,
              weight_noise := zerosM num_experts input_size,
              training := true }

/-- Mean of a rational vector, `x.mean()` (division by zero yields 0 in ℚ;
the source never evaluates the mean of an empty tensor). -/
def meanQ (x : List ℚ) : ℚ := x.sum / (x.length : ℚ)

/-- Unbiased sample variance, `x.var()` (torch defaults to the `n - 1`
correction). -/
def varQ (x : List ℚ) : ℚ :=
  (x.map (fun v => (v - meanQ x) ^ 2)).sum / ((x.length : ℚ) - 1)

/-- `TopKBalancedNoisyGate.cv_squared`: returns 0 when the vector has exactly
one element, else `var / (mean ** 2 + eps)` with `eps = 1e-10`. -/
def cv_squared (x : List ℚ) : ℚ :=
  if x.length = 1 then 0 else varQ x / (meanQ x ^ 2 + 1 / 10 ^ 10)

/-- Ordering used to embed `torch.topk` on one row: pairs (index, value) are
ranked by strictly larger value first, ties broken by smaller index (a
deterministic refinement of the backend-dependent tie order; no theorem below
depends on the tie rule). -/
def topkRel (a b : Nat × ℚ) : Prop := b.2 < a.2 ∨ (a.2 = b.2 ∧ a.1 ≤ b.1)

instance : DecidableRel topkRel := fun a b => by unfold topkRel; infer_instance

/-- `torch.topk(xs, k)` on one row: the `k` best (index, value) pairs in
descending value order. -/
def topkPairs (xs : List ℚ) (k : Nat) : List (Nat × ℚ) :=
  (xs.enum.insertionSort topkRel).take k

/-- The values component of `torch.topk` (first return). -/
def topValues (xs : List ℚ) (k : Nat) : List ℚ := (topkPairs xs k).map (fun p => p.2)

/-- The indices component of `torch.topk` (second return). -/
def topIndices (xs : List ℚ) (k : Nat) : List Nat := (topkPairs xs k).map (fun p => p.1)

/-- `zeros.scatter(dim=1, index, src)` on one row: sequentially write each
source value at its index position into the accumulator row (later writes
win, matching in-order scatter semantics; the gate only scatters at distinct
in-range indices). -/
def scatterWrites (acc : List ℚ) : List (Nat × ℚ) → List ℚ
  | [] => acc
  | p :: rest => scatterWrites (acc.set p.1 p.2) rest

/-- `t.sum(0)` for a matrix with `n` columns: the vector of column sums. -/
def colSumQ (rows : List (List ℚ)) (n : Nat) : List ℚ :=
  (List.range n).map (fun e => (rows.map (fun row => row.getD e 0)).sum)

/-- The Gaussian draw of `torch.randn_like(logits_gate)`, supplied
explicitly: entry (i, j) of the sampled standard-normal matrix. -/
def NoiseDraw : Type := Nat → Nat → ℚ

/-- `logits_gate = self.gate_network(x)` (forward, line 111). -/
def logitsGateM (A : Analytic) (g : TopKBalancedNoisyGate)
    (x : List (List ℚ)) : List (List ℚ) :=
  x.map (g.gate_network.apply A)

/-- `noise_mm = self.weight_noise(x)` (forward, line 114). -/
def noiseMmM (g : TopKBalancedNoisyGate) (x : List (List ℚ)) : List (List ℚ) :=
  linMap g.weight_noise x

/-- `noise_control = self.softplus(noise_mm) + noise_epsilon` (line 116). -/
def noiseControlM (A : Analytic) (g : TopKBalancedNoisyGate)
    (x : List (List ℚ)) (noise_epsilon : ℚ) : List (List ℚ) :=
  (noiseMmM g x).map (fun row => row.map (fun v => A.softplus v + noise_epsilon))

/-- `logits_noise = torch.randn_like(logits_gate) * noise_control`
(line 117), with the Gaussian draw passed in as `noise`. -/
def logitsNoiseM (A : Analytic) (g : TopKBalancedNoisyGate)
    (x : List (List ℚ)) (noise : NoiseDraw) (noise_epsilon : ℚ) : List (List ℚ) :=
  (noiseControlM A g x noise_epsilon).enum.map
    (fun r => r.2.enum.map (fun c => noise r.1 c.1 * c.2))

/-- `logits`: the perturbed logits in training mode with noise, otherwise the
raw gate logits (forward, lines 112-120). -/
def logitsM (A : Analytic) (g : TopKBalancedNoisyGate)
    (x : List (List ℚ)) (noise : NoiseDraw) (noise_epsilon : ℚ) : List (List ℚ) :=
  if g.training && g.add_noise then
    List.zipWith (fun a b => List.zipWith (· + ·) a b)
      (logitsGateM A g x) (logitsNoiseM A g x noise noise_epsilon)
  else
    logitsGateM A g x

/-- `min(self.num_selects + 1, self.num_experts)`: the top-k width requested
at line 124, which is also `m = top_logits.size(1)` at line 147 whenever the
logits matrix has `num_experts` columns. -/
def kOf (g : TopKBalancedNoisyGate) : Nat := min (g.num_selects + 1) g.num_experts

/-- `top_logits` (forward, line 124): per-row top-k values. -/
def topLogitsM (A : Analytic) (g : TopKBalancedNoisyGate)
    (x : List (List ℚ)) (noise : NoiseDraw) (noise_epsilon : ℚ) : List (List ℚ) :=
  (logitsM A g x noise noise_epsilon).map (fun row => topValues row (kOf g))

/-- `top_indices` (forward, line 124): per-row top-k indices. -/
def topIndicesM (A : Analytic) (g : TopKBalancedNoisyGate)
    (x : List (List ℚ)) (noise : NoiseDraw) (noise_epsilon : ℚ) : List (List Nat) :=
  (logitsM A g x noise noise_epsilon).map (fun row => topIndices row (kOf g))

/-- `top_k_logits = top_logits[:, :num_selects]` (line 127). -/
def topKLogitsM (A : Analytic) (g : TopKBalancedNoisyGate)
    (x : List (List ℚ)) (noise : NoiseDraw) (noise_epsilon : ℚ) : List (List ℚ) :=
  (topLogitsM A g x noise noise_epsilon).map (List.take g.num_selects)

/-- `top_k_indices = top_indices[:, :num_selects]` (line 128). -/
def topKIndicesM (A : Analytic) (g : TopKBalancedNoisyGate)
    (x : List (List ℚ)) (noise : NoiseDraw) (noise_epsilon : ℚ) : List (List Nat) :=
  (topIndicesM A g x noise noise_epsilon).map (List.take g.num_selects)

/-- `top_k_scores`: row-wise softmax of the kept logits when `use_softmax`,
else the raw kept logits (lines 130-133). -/
def topKScoresM (A : Analytic) (g : TopKBalancedNoisyGate)
    (x : List (List ℚ)) (noise : NoiseDraw) (noise_epsilon : ℚ) : List (List ℚ) :=
  if g.use_softmax then
    (topKLogitsM A g x noise noise_epsilon).map (softmaxQ A)
  else
    topKLogitsM A g x noise noise_epsilon

/-- `scores_filtered = zeros.scatter(1, top_k_indices, top_k_scores)`
(lines 138-141): per row, the selected scores written into an all-zero row of
width `num_experts` at the selected indices. -/
def scoresFilteredM (A : Analytic) (g : TopKBalancedNoisyGate)
    (x : List (List ℚ)) (noise : NoiseDraw) (noise_epsilon : ℚ) : List (List ℚ) :=
  ((topKIndicesM A g x noise noise_epsilon).zip (topKScoresM A g x noise noise_epsilon)).map
    (fun p => scatterWrites (List.replicate g.num_experts 0) (p.1.zip p.2))

/-- `importance = scores_filtered.sum(0)` (line 142). -/
def balanceImportanceM (A : Analytic) (g : TopKBalancedNoisyGate)
    (x : List (List ℚ)) (noise : NoiseDraw) (noise_epsilon : ℚ) : List ℚ :=
  colSumQ (scoresFilteredM A g x noise noise_epsilon) g.num_experts

/-- `load = (scores_filtered > 0).sum(0)` (line 176): per expert, the count of
rows whose filtered score at that expert is strictly positive. -/
def loadHardM (A : Analytic) (g : TopKBalancedNoisyGate)
    (x : List (List ℚ)) (noise : NoiseDraw) (noise_epsilon : ℚ) : List ℚ :=
  (List.range g.num_experts).map (fun e =>
    (((scoresFilteredM A g x noise noise_epsilon).filter
      (fun row => decide (0 < row.getD e 0))).length : ℚ))

/-- `threshold_positions_if_in = arange(batch_size) * m + num_selects`
(lines 155-157), as signed integers since the `if_out` variant may go
negative. -/
def thresholdPositionsIfIn (g : TopKBalancedNoisyGate) (batch : Nat) : List Int :=
  (List.range batch).map (fun (i : Nat) => (i : Int) * (kOf g : Int) + (g.num_selects : Int))

/-- `threshold_positions_if_out = threshold_positions_if_in - 1` (line 162). -/
def thresholdPositionsIfOut (g : TopKBalancedNoisyGate) (batch : Nat) : List Int :=
  (thresholdPositionsIfIn g batch).map (fun i => i - 1)

/-- One element of `torch.gather(xs, 0, idx)`: bounds-checked read, failing
(as the tensor runtime does) when the index is negative or not below the
length. -/
def gatherOne (xs : List ℚ) (i : Int) : Except String ℚ :=
  if 0 ≤ i ∧ i.toNat < xs.length then .ok (xs.getD i.toNat 0)
  else .error "IndexError: gather index out of bounds"

/-- `torch.gather(top_values_flat, 0, positions)` (lines 158-165): read the
value at every position, failing on the first out-of-bounds position (every
failure carries the same message, so the failure order is immaterial). -/
def gatherFlat (xs : List ℚ) : List Int → Except String (List ℚ)
  | [] => .ok []
  | i :: rest =>
    match gatherOne xs i with
    | .error e => .error e
    | .ok v =>
      match gatherFlat xs rest with
      | .error e => .error e
      | .ok vs => .ok (v :: vs)

/-- One row of `torch.where(is_in, prob_if_in, prob_if_out)` (lines 161-173):
`is_in = logits_noise > threshold_if_in` elementwise against the row's
scalar threshold, and each probability is `Φ((logits_gate − threshold)
/ noise_control)`. -/
def probRow (A : Analytic) (lgRow lnRow ncRow : List ℚ) (tIn tOut : ℚ) : List ℚ :=
  (lgRow.zip (lnRow.zip ncRow)).map (fun v =>
    if tIn < v.2.1 then A.cdf ((v.1 - tIn) / v.2.2)
    else A.cdf ((v.1 - tOut) / v.2.2))

/-- The noisy load estimator (forward, lines 145-174): flatten the top
logits, gather the per-row thresholds at the `if_in`/`if_out` positions, form
the smoothed in-top-k probabilities and sum them per expert.  `m` is the
column count of `top_logits`. -/
def loadNoisyM (A : Analytic) (g : TopKBalancedNoisyGate)
    (x : List (List ℚ)) (noise : NoiseDraw) (noise_epsilon : ℚ) :
    Except String (List ℚ) := do
  let lg := logitsGateM A g x
  let batch := lg.length
  let flat := (topLogitsM A g x noise noise_epsilon).flatten
  let thIn ← gatherFlat flat (thresholdPositionsIfIn g batch)
  let thOut ← gatherFlat flat (thresholdPositionsIfOut g batch)
  let ln := logitsNoiseM A g x noise noise_epsilon
  let nc := noiseControlM A g x noise_epsilon
  let prob := (List.range batch).map (fun r =>
    probRow A (lg.getD r []) (ln.getD r []) (nc.getD r [])
      (thIn.getD r 0) (thOut.getD r 0))
  .ok (colSumQ prob g.num_experts)

/-- The balance branch (forward, lines 136-184): in training mode with
`use_balance`, compute the importance and load statistics and return
`some ((cv_squared importance + cv_squared load) * loss_coef)`; otherwise
`gate_loss = None`.  The only failure source is the gather inside the noisy
load estimator. -/
def gateLossM (A : Analytic) (g : TopKBalancedNoisyGate)
    (x : List (List ℚ)) (noise : NoiseDraw) (noise_epsilon loss_coef : ℚ) :
    Except String (Option ℚ) :=
  if g.training && g.use_balance then do
    let load ←
      if g.add_noise then loadNoisyM A g x noise noise_epsilon
      else .ok (loadHardM A g x noise noise_epsilon)
    .ok (some ((cv_squared (balanceImportanceM A g x noise noise_epsilon) +
                cv_squared load) * loss_coef))
  else .ok none

/-- `TopKBalancedNoisyGate.forward` (lines 109-186): returns the triple
`(top_k_indices, top_k_scores, gate_loss)`. -/
def forward (A : Analytic) (g : TopKBalancedNoisyGate)
    (x : List (List ℚ)) (noise : NoiseDraw) (noise_epsilon loss_coef : ℚ) :
    Except String (List (List Nat) × List (List ℚ) × Option ℚ) := do
  let loss ← gateLossM A g x noise noise_epsilon loss_coef
  .ok (topKIndicesM A g x noise noise_epsilon,
       topKScoresM A g x noise noise_epsilon, loss)

/-- The error raised by `torch.mm(x, self.weight_noise)` at line 192:
`torch.mm` requires a tensor as its second argument, but `self.weight_noise`
is an `nn.Linear` module. -/
def mmModuleTypeError : String :=
  "TypeError: mm() argument mat2 must be Tensor, not Linear"

/-- `scores`: softmax (or raw) transform of the full logits matrix
(forward_return_scores, lines 200-203). -/
def scoresFullM (A : Analytic) (g : TopKBalancedNoisyGate)
    (x : List (List ℚ)) (noise : NoiseDraw) (noise_epsilon : ℚ) : List (List ℚ) :=
  if g.use_softmax then (logitsM A g x noise noise_epsilon).map (softmaxQ A)
  else logitsM A g x noise noise_epsilon

/-- `TopKBalancedNoisyGate.forward_return_scores` (lines 188-268).  Unlike
`forward`, its noise branch computes `noise_mm = torch.mm(x,
self.weight_noise)` (line 192) where `self.weight_noise` is the `nn.Linear`
module itself, not a weight tensor, so in training mode with `add_noise` the
call fails with a `TypeError` before anything else happens.  Otherwise the
computation proceeds with `logits = logits_gate` and is the same balance
computation as `forward`, returning `(scores, gate_loss)`. -/
def forward_return_scores (A : Analytic) (g : TopKBalancedNoisyGate)
    (x : List (List ℚ)) (noise : NoiseDraw) (noise_epsilon loss_coef : ℚ) :
    Except String (List (List ℚ) × Option ℚ) :=
  if g.training && g.add_noise then .error mmModuleTypeError
  else do
    let loss ← gateLossM A g x noise noise_epsilon loss_coef
    .ok (scoresFullM A g x noise noise_epsilon, loss)

/-- Shape side conditions satisfied by every gate built by
`TopKBalancedNoisyGate.init`: the gate network outputs `num_experts` logits
and the noise projection has `num_experts` output rows. -/
def WellShaped (g : TopKBalancedNoisyGate) : Prop :=
  g.gate_network.outLen = g.num_experts ∧ g.weight_noise.length = g.num_experts

/-- The per-cluster tally dictionary `source_to_num` of
`clustering_distribution.main` (lines 17-25), one counter per known source
corpus. -/
structure SourceToNum where
  arxiv : Nat
  books : Nat
  c4 : Nat
  commoncrawl : Nat
  github : Nat
  stackexchange : Nat
  wikipedia : Nat
deriving DecidableEq

/-- The initial tally: every source at zero. -/
def initialTally : SourceToNum := ⟨0, 0, 0, 0, 0, 0, 0⟩

/-- `ins["file"].split("-")[0]`: the portion of the `file` field before the
first dash (the whole string when there is no dash), expressed over the
character list so that it evaluates by kernel reduction. -/
def fileKey (file : String) : String :=
  String.mk (file.data.takeWhile (fun ch => ch != Char.ofNat 45))

/-- `source_to_num[source] += 1` (line 29): increment the tally at the given
key, or fail with a `KeyError` when the key is not one of the seven known
sources. -/
def bumpSource (t : SourceToNum) (key : String) : Except String SourceToNum :=
  if key = "arxiv" then .ok { t with arxiv := t.arxiv + 1 }
  else if key = "books" then .ok { t with books := t.books + 1 }
  else if key = "c4" then .ok { t with c4 := t.c4 + 1 }
  else if key = "commoncrawl" then .ok { t with commoncrawl := t.commoncrawl + 1 }
  else if key = "github" then .ok { t with github := t.github + 1 }
  else if key = "stackexchange" then .ok { t with stackexchange := t.stackexchange + 1 }
  else if key = "wikipedia" then .ok { t with wikipedia := t.wikipedia + 1 }
  else .error ("KeyError: " ++ key)

/-- Whether a derived key is one of the seven known sources. -/
def knownSource (key : String) : Bool :=
  key = "arxiv" || key = "books" || key = "c4" || key = "commoncrawl" ||
  key = "github" || key = "stackexchange" || key = "wikipedia"

/-- The per-file tally loop of `clustering_distribution.main` (lines 26-29),
starting from a given tally: for each record (represented by its `file`
field), bump the counter of its derived source key. -/
def tallyFrom (t : SourceToNum) : List String → Except String SourceToNum
  | [] => .ok t
  | f :: rest =>
    match bumpSource t (fileKey f) with
    | .error e => .error e
    | .ok t2 => tallyFrom t2 rest

/-- The tally produced for one cluster file whose records have the given
`file` fields. -/
def tallyFile (records : List String) : Except String SourceToNum :=
  tallyFrom initialTally records

/-- The number of records of a file whose derived source key equals `k`. -/
def keyCount (records : List String) (k : String) : Nat :=
  (records.filter (fun f => fileKey f = k)).length

/-! Concrete fixtures used to evaluate the embedding on specific inputs.
`constAnalytic` instantiates the abstract transcendental primitives with
concrete positive-valued functions (only their positivity matters to any
statement evaluated on it), and `zeroDraw` is the all-zeros Gaussian draw. -/

/-- A concrete `Analytic` instance for evaluation: `exp` and `cdf` are the
constant 1 (positive everywhere, like their real counterparts), `tanh` and
`softplus` the identity. -/
def constAnalytic : Analytic := ⟨fun _ => 1, fun q => q, fun q => q, fun _ => 1⟩

/-- The all-zeros Gaussian draw. -/
def zeroDraw : NoiseDraw := fun _ _ => 0

/-- A training-mode gate with noise enabled: 1 input feature, 2 experts,
1 selected, zero-initialized linear gate network. -/
def gTrainNoise : TopKBalancedNoisyGate :=
  { input_size := 1, num_experts := 2, num_selects := 1,
    gate_network := .linear (zerosM 2 1), use_balance := true,
    add_noise := true, use_softmax := true,
    weight_noise := zerosM 2 1, training := true }

/-- A training-mode gate with noise disabled and raw (non-softmax) scores. -/
def gHardLoad : TopKBalancedNoisyGate :=
  { input_size := 1, num_experts := 2, num_selects := 1,
    gate_network := .linear (zerosM 2 1), use_balance := true,
    add_noise := false, use_softmax := false,
    weight_noise := zerosM 2 1, training := true }

/-- A training-mode gate with noise disabled and softmax scoring enabled. -/
def gSoftLoad : TopKBalancedNoisyGate :=
  { input_size := 1, num_experts := 2, num_selects := 1,
    gate_network := .linear (zerosM 2 1), use_balance := true,
    add_noise := false, use_softmax := true,
    weight_noise := zerosM 2 1, training := true }

/-- A gate with `num_selects = 0` and softmax scoring enabled. -/
def gZeroSelect : TopKBalancedNoisyGate :=
  { input_size := 1, num_experts := 1, num_selects := 0,
    gate_network := .linear (zerosM 1 1), use_balance := true,
    add_noise := false, use_softmax := true,
    weight_noise := zerosM 1 1, training := true }

/-- A training-mode noisy gate with `num_selects = 0 < 1 = num_experts`. -/
def gZeroSelectNoise : TopKBalancedNoisyGate :=
  { input_size := 1, num_experts := 1, num_selects := 0,
    gate_network := .linear (zerosM 1 1), use_balance := true,
    add_noise := true, use_softmax := true,
    weight_noise := zerosM 1 1, training := true }

/-- A training-mode noisy gate with `num_selects = num_experts = 1`. -/
def gFullSelect : TopKBalancedNoisyGate :=
  { input_size := 1, num_experts := 1, num_selects := 1,
    gate_network := .linear (zerosM 1 1), use_balance := true,
    add_noise := true, use_softmax := true,
    weight_noise := zerosM 1 1, training := true }

/-- An evaluation-mode gate (`training = false`). -/
def gEvalMode : TopKBalancedNoisyGate :=
  { input_size := 1, num_experts := 2, num_selects := 1,
    gate_network := .linear (zerosM 2 1), use_balance := true,
    add_noise := true, use_softmax := false,
    weight_noise := zerosM 2 1, training := false }

-- Decidable equality of `Except` results, for evaluating concrete runs.
deriving instance DecidableEq for Except

/-- `forward` as an `Except.map` over the balance-loss computation: the
returned indices and scores are the pure top-k computation, and the only
failure source is the loss computation. -/
lemma forward_eq_map (A : Analytic) (g : TopKBalancedNoisyGate)
    (x : List (List ℚ)) (noise : NoiseDraw) (noise_epsilon loss_coef : ℚ) :
    forward A g x noise noise_epsilon loss_coef =
      (gateLossM A g x noise noise_epsilon loss_coef).map
        (fun l => (topKIndicesM A g x noise noise_epsilon,
                   topKScoresM A g x noise noise_epsilon, l)) := by
  cases h : gateLossM A g x noise noise_epsilon loss_coef <;>
    simp [forward, h, Except.map, Bind.bind, Except.bind]

/-- C1: the spec asserts that `forward_return_scores` performs a computation
identical to `forward` through the noise step and returns the same gate loss,
but in training mode with `add_noise` the source computes `noise_mm =
torch.mm(x, self.weight_noise)` (line 192) where `self.weight_noise` is an
`nn.Linear` module rather than a tensor, so the call raises a `TypeError`,
while `forward` (which calls `self.weight_noise(x)`, line 114) succeeds and
returns a gate loss: evaluated at the failing input below, `forward` succeeds
and `forward_return_scores` fails. -/
theorem forward_return_scores_mm_type_error :
    (forward constAnalytic gTrainNoise [[1]] zeroDraw (1/100) (1/100)).isOk = true ∧
    forward_return_scores constAnalytic gTrainNoise [[1]] zeroDraw (1/100) (1/100) =
      .error mmModuleTypeError := by
  constructor
  · norm_num [forward, gateLossM, loadNoisyM, gatherFlat, gatherOne, thresholdPositionsIfIn,
      thresholdPositionsIfOut, topLogitsM, topValues, topkPairs, kOf, logitsM, logitsGateM,
      logitsNoiseM, noiseControlM, noiseMmM, gTrainNoise, GateNetwork.apply, linApp, linMap, dotQ,
      zerosM, constAnalytic, zeroDraw, List.replicate, List.enum, List.enumFrom, List.insertionSort,
      List.orderedInsert, topkRel, probRow, colSumQ, balanceImportanceM, scoresFilteredM,
      topKIndicesM, topIndicesM, topIndices, topKScoresM, topKLogitsM, softmaxQ, scatterWrites,
      cv_squared, varQ, meanQ, List.range, List.range.loop, Except.isOk, Except.toBool,
      List.mapM, List.mapM.loop, Bind.bind, Except.bind, Pure.pure, Except.pure, Nat.min_def]
  · norm_num [forward_return_scores, gTrainNoise]

/-- C5 (counterexample): with `use_softmax = false`, the load computed by the
no-noise branch, `load = (scores_filtered > 0).sum(0)`, is NOT the count of
rows in which each expert was selected: with a zero-initialized linear gate
all logits are 0, expert 0 is selected in the single row, yet its filtered
score 0 is not strictly positive, so `load = [0, 0]` while the selection
count of expert 0 is 1. -/
theorem load_hard_count_cex :
    loadHardM constAnalytic gHardLoad [[1]] zeroDraw (1/100) = [0, 0] ∧
    ((topKIndicesM constAnalytic gHardLoad [[1]] zeroDraw (1/100)).filter
      (fun row => decide (0 ∈ row))).length = 1 ∧
    (loadHardM constAnalytic gHardLoad [[1]] zeroDraw (1/100)).getD 0 0 ≠
      (((topKIndicesM constAnalytic gHardLoad [[1]] zeroDraw (1/100)).filter
        (fun row => decide (0 ∈ row))).length : ℚ) := by
  refine ⟨?_, ?_, ?_⟩ <;>
  norm_num [loadHardM, scoresFilteredM, topKIndicesM, topIndicesM, topIndices, topKScoresM,
    topKLogitsM, topLogitsM, topValues, topkPairs, kOf, logitsM, logitsGateM, gHardLoad,
    GateNetwork.apply, linApp, linMap, dotQ, zerosM, constAnalytic, zeroDraw, List.replicate,
    List.enum, List.enumFrom, List.insertionSort, List.orderedInsert, topkRel, scatterWrites,
    List.range, List.range.loop, Nat.min_def, List.filter]

/-- C6 (counterexample): with `use_softmax = true` but `num_selects = 0`, the
rows of `top_k_scores` are empty, so they sum to 0 rather than 1, and
the importance vector sums to 0 rather than to the batch size 1. -/
theorem softmax_row_sum_cex :
    gZeroSelect.use_softmax = true ∧
    topKScoresM constAnalytic gZeroSelect [[0]] zeroDraw (1/100) = [[]] ∧
    balanceImportanceM constAnalytic gZeroSelect [[0]] zeroDraw (1/100) = [0] := by
  refine ⟨rfl, ?_, ?_⟩ <;>
  norm_num [balanceImportanceM, colSumQ, scoresFilteredM, topKIndicesM, topIndicesM, topIndices,
    topKScoresM, topKLogitsM, topLogitsM, topValues, topkPairs, kOf, logitsM, logitsGateM,
    gZeroSelect, GateNetwork.apply, linApp, linMap, dotQ, zerosM, constAnalytic, zeroDraw,
    List.replicate, List.enum, List.enumFrom, List.insertionSort, List.orderedInsert, topkRel,
    softmaxQ, scatterWrites, List.range, List.range.loop, Nat.min_def]

/-- C10 (counterexample): `num_selects < num_experts` alone does NOT make
every threshold position in range: with `num_selects = 0 < 1 = num_experts`,
`threshold_positions_if_out = [-1]` is out of bounds and `forward` fails with
the gather error in training mode with noise and balance enabled. -/
theorem threshold_if_out_negative_cex :
    gZeroSelectNoise.num_selects < gZeroSelectNoise.num_experts ∧
    thresholdPositionsIfOut gZeroSelectNoise 1 = [-1] ∧
    forward constAnalytic gZeroSelectNoise [[0]] zeroDraw (1/100) (1/100) =
      .error "IndexError: gather index out of bounds" := by
  refine ⟨by norm_num [gZeroSelectNoise], ?_, ?_⟩ <;>
  norm_num [forward, gateLossM, loadNoisyM, gatherFlat, gatherOne, thresholdPositionsIfIn,
    thresholdPositionsIfOut, List.singleton, topLogitsM, topValues, topkPairs, kOf, logitsM,
    logitsGateM, logitsNoiseM, noiseControlM, noiseMmM, gZeroSelectNoise, GateNetwork.apply,
    linApp, linMap, dotQ, zerosM, constAnalytic, zeroDraw, List.replicate, List.enum,
    List.enumFrom, List.insertionSort, List.orderedInsert, topkRel, List.range, List.range.loop,
    List.mapM, List.mapM.loop, Bind.bind, Except.bind, Pure.pure, Except.pure, Nat.min_def]

/-- C8: constructing the gate with `num_selects > num_experts` fails at
construction time with the assertion error, and constructing it with a
gate-network string that is not `linear` or `mlp` after lower-casing fails at
construction time with a `ValueError` whose message names the two valid
choices; in both cases no gate value is produced. -/
theorem init_validation (is ne ns : Nat) (gt : String) (b n s : Bool)
    (W1 W2 : List (List ℚ)) :
    (ne < ns → TopKBalancedNoisyGate.init is ne ns gt b n s W1 W2 =
        .error "AssertionError: num_selects <= num_experts") ∧
    (ns ≤ ne → pyLower gt ≠ "linear" → pyLower gt ≠ "mlp" →
      TopKBalancedNoisyGate.init is ne ns gt b n s W1 W2 =
        .error ("ValueError: Expected gate_type in (linear, mlp), got " ++ pyLower gt)) := by
  constructor
  · intro h; simp [TopKBalancedNoisyGate.init, h]
  · intro hle h1 h2
    simp [TopKBalancedNoisyGate.init, Nat.not_lt.mpr hle, get_gate_network, h1, h2]

/-- C8 (witness): both construction failures evaluated on concrete inputs. -/
theorem init_validation_witness :
    TopKBalancedNoisyGate.init 4 2 3 "mlp" true true true [] [] =
      .error "AssertionError: num_selects <= num_experts" ∧
    TopKBalancedNoisyGate.init 4 2 1 "conv" true true true [] [] =
      .error "ValueError: Expected gate_type in (linear, mlp), got conv" := by
  constructor
  · exact (init_validation 4 2 3 "mlp" true true true [] []).1 (by norm_num)
  · have h := (init_validation 4 2 1 "conv" true true true [] []).2 (by norm_num)
      (by decide) (by decide)
    rw [h]; decide

/-- An unknown source key makes `bumpSource` fail with a `KeyError`. -/
lemma bumpSource_unknown (t : SourceToNum) (k : String) (h : knownSource k = false) :
    bumpSource t k = .error ("KeyError: " ++ k) := by
  simp only [knownSource, Bool.or_eq_false_iff, decide_eq_false_iff_not] at h
  obtain ⟨⟨⟨⟨⟨⟨h1, h2⟩, h3⟩, h4⟩, h5⟩, h6⟩, h7⟩ := h
  simp [bumpSource, h1, h2, h3, h4, h5, h6, h7]

/-- When every record has a known source key, the tally loop succeeds and
adds to each counter exactly the number of records whose key is that
counter's source. -/
lemma tallyFrom_known_ok (records : List String) : ∀ t : SourceToNum,
    (∀ f ∈ records, knownSource (fileKey f) = true) →
    tallyFrom t records = .ok
      ⟨t.arxiv + keyCount records "arxiv", t.books + keyCount records "books",
       t.c4 + keyCount records "c4", t.commoncrawl + keyCount records "commoncrawl",
       t.github + keyCount records "github", t.stackexchange + keyCount records "stackexchange",
       t.wikipedia + keyCount records "wikipedia"⟩ := by
  induction records with
  | nil => intro t h; simp [tallyFrom, keyCount]
  | cons f rest ih =>
    intro t h
    have hf := h f (List.mem_cons_self f rest)
    have hrest := fun z hz => h z (List.mem_cons_of_mem f hz)
    simp only [knownSource, Bool.or_eq_true, decide_eq_true_eq] at hf
    rcases hf with ((((((h1 | h1) | h1) | h1) | h1) | h1) | h1) <;>
      simp [tallyFrom, bumpSource, h1, keyCount, List.filter_cons, ih _ hrest,
        SourceToNum.mk.injEq] <;> omega

/-- A record with an unknown source key makes the tally loop fail. -/
lemma tallyFrom_unknown_error (records : List String) : ∀ t : SourceToNum,
    (∃ f ∈ records, knownSource (fileKey f) = false) →
    ∃ e, tallyFrom t records = .error e := by
  induction records with
  | nil => intro t h; simp at h
  | cons f rest ih =>
    intro t h
    cases hk : knownSource (fileKey f) with
    | false =>
      exact ⟨"KeyError: " ++ fileKey f, by simp [tallyFrom, bumpSource_unknown t _ hk]⟩
    | true =>
      cases hb : bumpSource t (fileKey f) with
      | error e =>
        exact ⟨e, by simp [tallyFrom, hb]⟩
      | ok t2 =>
        obtain ⟨z, hz, hzf⟩ := h
        rcases List.mem_cons.mp hz with rfl | hzr
        · rw [hk] at hzf; exact absurd hzf (by simp)
        · obtain ⟨e, he⟩ := ih t2 ⟨z, hzr, hzf⟩
          exact ⟨e, by simp [tallyFrom, hb, he]⟩

/-- C9: when every record's `file`-field prefix (before the first dash) is
one of the seven known sources, the per-file tally maps each of the seven
keys to exactly the number of records whose prefix equals that key; on the
literal file of the spec the tally is 2 arxiv, 1 github, 0 elsewhere; and a
record whose prefix is unknown makes the tally fail with a lookup error. -/
theorem clustering_tally_spec (records : List String) :
    ((∀ f ∈ records, knownSource (fileKey f) = true) →
      tallyFile records = .ok
        ⟨keyCount records "arxiv", keyCount records "books", keyCount records "c4",
         keyCount records "commoncrawl", keyCount records "github",
         keyCount records "stackexchange", keyCount records "wikipedia"⟩) ∧
    tallyFile ["arxiv-001", "arxiv-002", "github-005"] = .ok ⟨2, 0, 0, 0, 1, 0, 0⟩ ∧
    ((∃ f ∈ records, knownSource (fileKey f) = false) →
      ∃ e, tallyFile records = .error e) := by
  refine ⟨?_, ?_, ?_⟩
  · intro h
    have := tallyFrom_known_ok records initialTally h
    simpa [tallyFile, initialTally] using this
  · have h9 := tallyFrom_known_ok ["arxiv-001", "arxiv-002", "github-005"] initialTally
      (by decide)
    rw [tallyFile, h9]; decide
  · intro h; exact tallyFrom_unknown_error records initialTally h

/-- C9 (witness): the tally theorem applied to a concrete all-known file and
to a concrete file containing an unknown prefix. -/
theorem clustering_tally_spec_witness :
    tallyFile ["arxiv-001", "wikipedia-9"] = .ok ⟨1, 0, 0, 0, 0, 0, 1⟩ ∧
    (∃ e, tallyFile ["web-1"] = .error e) := by
  constructor
  · have h := (clustering_tally_spec ["arxiv-001", "wikipedia-9"]).1 (by decide)
    rw [h]; decide
  · exact (clustering_tally_spec ["web-1"]).2.2 ⟨"web-1", by decide, by decide⟩


/-- C3: whenever `forward` returns a result, its `gate_loss` component is
present (a `some` value) if and only if the module is in training mode and
`use_balance` is true, independently of `add_noise` and `use_softmax`. -/
theorem gate_loss_presence (A : Analytic) (g : TopKBalancedNoisyGate) (x : List (List ℚ))
    (noise : NoiseDraw) (eps c : ℚ) (res : List (List Nat) × List (List ℚ) × Option ℚ)
    (hok : forward A g x noise eps c = .ok res) :
    res.2.2.isSome = (g.training && g.use_balance) := by
  rw [forward_eq_map] at hok
  cases hgl : gateLossM A g x noise eps c with
  | error e => rw [hgl] at hok; simp [Except.map] at hok
  | ok l =>
    rw [hgl] at hok
    simp only [Except.map, Except.ok.injEq] at hok
    have hres : res.2.2 = l := by rw [← hok]
    rw [hres]
    cases hc : (g.training && g.use_balance) with
    | false =>
      rw [gateLossM, hc] at hgl
      simp at hgl
      rw [← hgl]; rfl
    | true =>
      rw [gateLossM, hc] at hgl
      simp only [if_true] at hgl
      cases han : g.add_noise with
      | true =>
        rw [han] at hgl
        simp only [if_true] at hgl
        cases hld : loadNoisyM A g x noise eps with
        | error e => rw [hld] at hgl; simp [Bind.bind, Except.bind] at hgl
        | ok ld =>
          rw [hld] at hgl
          simp only [Bind.bind, Except.bind, Except.ok.injEq] at hgl
          rw [← hgl]; rfl
      | false =>
        rw [han] at hgl
        simp only [Bool.false_eq_true, if_false, Bind.bind, Except.bind,
          Except.ok.injEq] at hgl
        rw [← hgl]; rfl

/-- C3 (witness): a concrete training-mode balanced run returns a present
gate loss. -/
theorem gate_loss_presence_witness :
    (some ((cv_squared (balanceImportanceM constAnalytic gHardLoad [[1]] zeroDraw (1/100)) +
      cv_squared (loadHardM constAnalytic gHardLoad [[1]] zeroDraw (1/100))) * (1/100))).isSome
      = (gHardLoad.training && gHardLoad.use_balance) := by
  refine gate_loss_presence constAnalytic gHardLoad [[1]] zeroDraw (1/100) (1/100)
    (topKIndicesM constAnalytic gHardLoad [[1]] zeroDraw (1/100),
     topKScoresM constAnalytic gHardLoad [[1]] zeroDraw (1/100),
     some ((cv_squared (balanceImportanceM constAnalytic gHardLoad [[1]] zeroDraw (1/100)) +
      cv_squared (loadHardM constAnalytic gHardLoad [[1]] zeroDraw (1/100))) * (1/100))) ?_
  simp [forward, gateLossM, gHardLoad, Bind.bind, Except.bind]

/-- C4: `cv_squared` returns exactly 0 on a one-element vector and on a
constant vector with at least two elements and nonzero entry, and on any
vector of nonzero variance it returns exactly
`variance / (mean ^ 2 + 1e-10)`, which is strictly positive. -/
theorem cv_squared_spec (a c : ℚ) (n : Nat) (x : List ℚ) :
    cv_squared [a] = 0 ∧
    (c ≠ 0 → 2 ≤ n → cv_squared (List.replicate n c) = 0) ∧
    (varQ x ≠ 0 →
      cv_squared x = varQ x / (meanQ x ^ 2 + 1 / 10 ^ 10) ∧ 0 < cv_squared x) := by
  refine ⟨by simp [cv_squared], ?_, ?_⟩
  · intro hc hn
    have hn0 : (n : ℚ) ≠ 0 := by positivity
    have hmean : meanQ (List.replicate n c) = c := by
      simp [meanQ, List.sum_replicate, nsmul_eq_mul]
      field_simp
    have hvar : varQ (List.replicate n c) = 0 := by
      simp [varQ, hmean, List.map_replicate, List.sum_replicate]
    simp [cv_squared, hvar]
  · intro hv
    have hlen : x.length ≠ 1 := by
      intro h1
      obtain ⟨v, rfl⟩ := List.length_eq_one.mp h1
      apply hv
      simp [varQ, meanQ]
    have hformula : cv_squared x = varQ x / (meanQ x ^ 2 + 1 / 10 ^ 10) := by
      simp [cv_squared, hlen]
    refine ⟨hformula, ?_⟩
    have hlen2 : 2 ≤ x.length := by
      match x, hv, hlen with
      | [], hv, hlen => exact absurd (by simp [varQ, meanQ]) hv
      | [a], hv, hlen => exact absurd rfl hlen
      | a :: b :: t, hv, hlen => simp
    have hS : 0 ≤ (x.map (fun v => (v - meanQ x) ^ 2)).sum :=
      List.sum_nonneg (by intro v hvmem; simp only [List.mem_map] at hvmem
                          obtain ⟨w, _, rfl⟩ := hvmem; positivity)
    have hden : (0:ℚ) < (x.length : ℚ) - 1 := by
      have : (2:ℚ) ≤ (x.length : ℚ) := by exact_mod_cast hlen2
      linarith
    have hvarpos : 0 < varQ x := by
      rcases lt_or_eq_of_le hS with h | h
      · exact div_pos h hden
      · exfalso; apply hv; rw [varQ, ← h, zero_div]
    rw [hformula]
    have hd2 : (0:ℚ) < meanQ x ^ 2 + 1 / 10 ^ 10 := by positivity
    exact div_pos hvarpos hd2

/-- C4 (witness): the three cases evaluated on concrete vectors. -/
theorem cv_squared_spec_witness :
    cv_squared [(5:ℚ)] = 0 ∧ cv_squared (List.replicate 3 (2:ℚ)) = 0 ∧
    0 < cv_squared [(0:ℚ), 1] := by
  refine ⟨(cv_squared_spec 5 2 3 [0, 1]).1,
          (cv_squared_spec 5 2 3 [0, 1]).2.1 (by norm_num) (by norm_num),
          ((cv_squared_spec 5 2 3 [0, 1]).2.2 ?_).2⟩
  norm_num [varQ, meanQ]


/-- C7: when the module is not in training mode or noise is disabled, the
result of `forward` does not depend on the Gaussian draw: two invocations on
the same input and state return identical results (in particular identical
`top_k_indices` and `top_k_scores`), since `logits = gate_network(x)` in both
runs. -/
theorem forward_eval_deterministic (A : Analytic) (g : TopKBalancedNoisyGate)
    (x : List (List ℚ)) (n1 n2 : NoiseDraw) (eps c : ℚ)
    (h : g.training = false ∨ g.add_noise = false) :
    forward A g x n1 eps c = forward A g x n2 eps c := by
  have hcond : (g.training && g.add_noise) = false := by
    rcases h with h | h <;> simp [h]
  have hlog : ∀ n : NoiseDraw, logitsM A g x n eps = logitsGateM A g x := by
    intro n; simp [logitsM, hcond]
  rcases h with h | h
  · simp [forward, gateLossM, h]
    simp [topKIndicesM, topIndicesM, topKScoresM, topKLogitsM, topLogitsM, hlog]
  · simp [forward, gateLossM, h, loadHardM, balanceImportanceM, scoresFilteredM,
      topKIndicesM, topIndicesM, topKScoresM, topKLogitsM, topLogitsM, hlog]

/-- C7 (witness): an evaluation-mode gate run under two different draws. -/
theorem forward_eval_deterministic_witness :
    forward constAnalytic gEvalMode [[0]] zeroDraw (1/100) (1/100) =
    forward constAnalytic gEvalMode [[0]] (fun i j => (i : ℚ) + j + 1) (1/100) (1/100) := by
  exact forward_eval_deterministic constAnalytic gEvalMode [[0]] zeroDraw
    (fun i j => (i : ℚ) + j + 1) (1/100) (1/100) (Or.inl rfl)


/-- The gate network always outputs `outLen` many logits. -/
lemma GateNetwork.apply_length (A : Analytic) (gn : GateNetwork) (x : List ℚ) :
    (gn.apply A x).length = gn.outLen := by
  cases gn <;> simp [GateNetwork.apply, GateNetwork.outLen, linApp]

/-- Membership in a `zipWith` decomposes into members of the two lists. -/
lemma mem_zipWith_pair {α β γ : Type} {f : α → β → γ} {l1 : List α} {l2 : List β} {c : γ}
    (h : c ∈ List.zipWith f l1 l2) : ∃ a ∈ l1, ∃ b ∈ l2, c = f a b := by
  induction l1 generalizing l2 with
  | nil => simp at h
  | cons a t ih =>
    cases l2 with
    | nil => simp at h
    | cons b t2 =>
      rcases List.mem_cons.mp h with rfl | hm
      · exact ⟨a, List.mem_cons_self a t, b, List.mem_cons_self b t2, rfl⟩
      · obtain ⟨a2, ha, b2, hb, rfl⟩ := ih hm
        exact ⟨a2, List.mem_cons_of_mem a ha, b2, List.mem_cons_of_mem b hb, rfl⟩

/-- Every row of the (possibly noise-perturbed) logits matrix has
`num_experts` entries for a well-shaped gate. -/
lemma logitsM_row_length (A : Analytic) (g : TopKBalancedNoisyGate)
    (x : List (List ℚ)) (noise : NoiseDraw) (eps : ℚ) (hsh : WellShaped g) :
    ∀ row ∈ logitsM A g x noise eps, row.length = g.num_experts := by
  obtain ⟨hgn, hwn⟩ := hsh
  intro row hrow
  rw [logitsM] at hrow
  split at hrow
  · obtain ⟨a, ha, b, hb, rfl⟩ := mem_zipWith_pair hrow
    simp only [logitsGateM, List.mem_map] at ha
    obtain ⟨xr, _, rfl⟩ := ha
    simp only [logitsNoiseM, List.mem_map] at hb
    obtain ⟨p, hp, rfl⟩ := hb
    have hp2 : p.2 ∈ noiseControlM A g x eps := by
      obtain ⟨h1, h2, h3⟩ := List.mem_enumFrom hp
      rw [h3]
      exact List.getElem_mem _
    simp only [noiseControlM, List.mem_map] at hp2
    obtain ⟨r2, hr2, hr2eq⟩ := hp2
    simp only [noiseMmM, linMap, List.mem_map] at hr2
    obtain ⟨xr2, _, rfl⟩ := hr2
    have hlen2 : p.2.length = g.weight_noise.length := by
      rw [← hr2eq]; simp [linApp]
    simp [List.length_zipWith, GateNetwork.apply_length, hgn, List.enum, hlen2, hwn]
  · simp only [logitsGateM, List.mem_map] at hrow
    obtain ⟨xr, _, rfl⟩ := hrow
    rw [GateNetwork.apply_length, hgn]

/-- The top-k index list of a row has `min k n` entries, no duplicates, and
only in-range indices. -/
lemma topIndices_spec (xs : List ℚ) (k : Nat) :
    (topIndices xs k).length = min k xs.length ∧
    (topIndices xs k).Nodup ∧
    ∀ i ∈ topIndices xs k, i < xs.length := by
  have hperm : List.Perm ((xs.enum.insertionSort topkRel).map Prod.fst)
      (List.range xs.length) := by
    have h1 := (List.perm_insertionSort topkRel xs.enum).map Prod.fst
    rwa [List.enum_map_fst] at h1
  have heq : topIndices xs k = ((xs.enum.insertionSort topkRel).map Prod.fst).take k := by
    rw [topIndices, topkPairs, List.map_take]
  constructor
  · rw [heq, List.length_take, List.length_map,
      (List.perm_insertionSort topkRel xs.enum).length_eq, List.enum_length]
  constructor
  · rw [heq]
    exact (List.take_sublist k _).nodup (hperm.nodup_iff.mpr (List.nodup_range _))
  · intro i hi
    rw [heq] at hi
    have : i ∈ (xs.enum.insertionSort topkRel).map Prod.fst :=
      (List.take_sublist k _).mem hi
    exact List.mem_range.mp (hperm.mem_iff.mp this)

/-- A successful `forward` run returns exactly the pure top-k indices and
scores. -/
lemma forward_ok_components (A : Analytic) (g : TopKBalancedNoisyGate) (x : List (List ℚ))
    (noise : NoiseDraw) (eps c : ℚ) (res : List (List Nat) × List (List ℚ) × Option ℚ)
    (hok : forward A g x noise eps c = .ok res) :
    res.1 = topKIndicesM A g x noise eps ∧ res.2.1 = topKScoresM A g x noise eps := by
  rw [forward_eq_map] at hok
  cases hgl : gateLossM A g x noise eps c with
  | error e => rw [hgl] at hok; simp [Except.map] at hok
  | ok l =>
    rw [hgl] at hok
    simp only [Except.map, Except.ok.injEq] at hok
    rw [← hok]
    exact ⟨rfl, rfl⟩

/-- C2: whenever `num_selects <= num_experts` and `forward` returns, the
returned `top_k_indices` has one row per batch row, each row has exactly
`num_selects` pairwise-distinct entries, all in `[0, num_experts)`. -/
theorem forward_top_k_indices_valid (A : Analytic) (g : TopKBalancedNoisyGate)
    (x : List (List ℚ)) (noise : NoiseDraw) (eps c : ℚ)
    (hsh : WellShaped g) (hsel : g.num_selects ≤ g.num_experts)
    (res : List (List Nat) × List (List ℚ) × Option ℚ)
    (hok : forward A g x noise eps c = .ok res) :
    res.1.length = x.length ∧
    ∀ row ∈ res.1, row.length = g.num_selects ∧ row.Nodup ∧
      ∀ i ∈ row, i < g.num_experts := by
  rw [(forward_ok_components A g x noise eps c res hok).1]
  constructor
  · simp [topKIndicesM, topIndicesM, logitsM]
    split <;> simp [List.length_zipWith, logitsGateM, logitsNoiseM, noiseControlM,
      noiseMmM, linMap]
  · intro row hrow
    simp only [topKIndicesM, topIndicesM, List.map_map, List.mem_map] at hrow
    obtain ⟨lr, hlr, rfl⟩ := hrow
    have hlen : lr.length = g.num_experts := logitsM_row_length A g x noise eps hsh lr hlr
    obtain ⟨hl, hnd, hbound⟩ := topIndices_spec lr (kOf g)
    have hk : min (kOf g) lr.length = kOf g := by
      rw [hlen]; simp [kOf]
    refine ⟨?_, ?_, ?_⟩
    · simp only [Function.comp]
      rw [List.length_take, hl, hk]
      simp [kOf]; omega
    · exact hnd.sublist (List.take_sublist _ _)
    · intro i hi
      have : i ∈ topIndices lr (kOf g) := (List.take_sublist _ _).mem hi
      rw [← hlen]
      exact hbound i this

/-- C2 (witness): the index-validity theorem evaluated on a concrete
evaluation-mode run. -/
theorem forward_top_k_indices_valid_witness :
    (([[0]] : List (List Nat)).length = ([[(0:ℚ)]] : List (List ℚ)).length) ∧
    (∀ row ∈ ([[0]] : List (List Nat)), row.length = 1 ∧ row.Nodup ∧
      ∀ i ∈ row, i < 2) := by
  have h := forward_top_k_indices_valid constAnalytic gEvalMode [[(0:ℚ)]] zeroDraw
    (1/100) (1/100) (by constructor <;> decide) (by decide)
    ([[0]], [[0]], none) ?_
  · exact h
  · norm_num [forward, gateLossM, loadHardM, balanceImportanceM, colSumQ, scoresFilteredM,
      topKIndicesM, topIndicesM, topIndices, topKScoresM, topKLogitsM, topLogitsM, topValues,
      topkPairs, kOf, logitsM, logitsGateM, gEvalMode, GateNetwork.apply, linApp, linMap, dotQ,
      zerosM, constAnalytic, zeroDraw, List.replicate, List.enum, List.enumFrom,
      List.insertionSort, List.orderedInsert, topkRel, scatterWrites, cv_squared, varQ, meanQ,
      List.range, List.range.loop, Nat.min_def, List.filter,
      Bind.bind, Except.bind, Pure.pure, Except.pure]


/-- Scattering preserves the row width. -/
lemma scatterWrites_length (ps : List (Nat × ℚ)) : ∀ acc : List ℚ,
    (scatterWrites acc ps).length = acc.length := by
  induction ps with
  | nil => intro acc; rfl
  | cons p rest ih => intro acc; rw [scatterWrites, ih, List.length_set]

/-- A position not written by any scatter pair keeps its value. -/
lemma scatterWrites_getD_not_mem (ps : List (Nat × ℚ)) : ∀ acc : List ℚ, ∀ e : Nat,
    (∀ p ∈ ps, p.1 ≠ e) → (scatterWrites acc ps).getD e 0 = acc.getD e 0 := by
  induction ps with
  | nil => intro acc e _; rfl
  | cons p rest ih =>
    intro acc e h
    rw [scatterWrites, ih _ e (fun q hq => h q (List.mem_cons_of_mem p hq))]
    have hne : p.1 ≠ e := h p (List.mem_cons_self p rest)
    simp [List.getD_eq_getElem?_getD, List.getElem?_set_ne hne]

/-- A position written once (no duplicate indices) holds its source value. -/
lemma scatterWrites_getD_mem (ps : List (Nat × ℚ)) : ∀ acc : List ℚ, ∀ e : Nat, ∀ v : ℚ,
    (ps.map Prod.fst).Nodup → (e, v) ∈ ps → e < acc.length →
    (scatterWrites acc ps).getD e 0 = v := by
  induction ps with
  | nil => intro acc e v _ hmem _; simp at hmem
  | cons p rest ih =>
    intro acc e v hnd hmem he
    rw [List.map_cons, List.nodup_cons] at hnd
    rcases List.mem_cons.mp hmem with rfl | hmem2
    · have hnotin : ∀ q ∈ rest, q.1 ≠ e := by
        intro q hq hq1
        apply hnd.1
        have hm : q.1 ∈ List.map Prod.fst rest := List.mem_map_of_mem Prod.fst hq
        rwa [hq1] at hm
      rw [scatterWrites, scatterWrites_getD_not_mem rest _ e hnotin]
      simp [List.getD_eq_getElem?_getD, List.getElem?_set_self he]
    · have hne : p.1 ≠ e := by
        intro hcontra
        exact hnd.1 (hcontra ▸ List.mem_map_of_mem Prod.fst hmem2)
      exact ih (acc.set p.1 p.2) e v hnd.2 hmem2 (by rw [List.length_set]; exact he)

/-- Scattering strictly positive sources at distinct in-range indices into a
zero row leaves a strictly positive entry exactly at the scattered indices. -/
lemma scatterWrites_zeros_pos_iff (n : Nat) (idx : List Nat) (src : List ℚ)
    (hnd : idx.Nodup) (hrange : ∀ i ∈ idx, i < n) (hlen : src.length = idx.length)
    (hpos : ∀ s ∈ src, 0 < s) (e : Nat) :
    (0 < (scatterWrites (List.replicate n 0) (idx.zip src)).getD e 0) ↔ e ∈ idx := by
  have hfst : (idx.zip src).map Prod.fst = idx :=
    List.map_fst_zip idx src (le_of_eq hlen.symm)
  constructor
  · intro hpos2
    by_contra hnm
    rw [scatterWrites_getD_not_mem _ _ e
        (fun p hp hp1 => hnm (hp1 ▸ hfst ▸ List.mem_map_of_mem Prod.fst hp))] at hpos2
    simp [List.getD_eq_getElem?_getD, List.getElem?_replicate] at hpos2
    split at hpos2 <;> simp at hpos2
  · intro hmem
    obtain ⟨j, hj, rfl⟩ := List.mem_iff_getElem.mp hmem
    have hj2 : j < src.length := by rw [hlen]; exact hj
    have hzip : (idx[j], src[j]) ∈ idx.zip src := by
      have hjz : j < (idx.zip src).length := by
        rw [List.length_zip]; omega
      have hgz := List.getElem_zip (h := hjz)
      rw [← hgz]
      exact List.getElem_mem hjz
    have hlt : idx[j] < n := hrange idx[j] (List.getElem_mem hj)
    rw [scatterWrites_getD_mem _ _ _ src[j] (by rw [hfst]; exact hnd) hzip
      (by rw [List.length_replicate]; exact hlt)]
    exact hpos src[j] (List.getElem_mem hj2)

/-- Softmax entries are strictly positive when `exp` is. -/
lemma softmaxQ_pos (A : Analytic) (hE : ∀ q, 0 < A.exp q) (xs : List ℚ) :
    ∀ v ∈ softmaxQ A xs, 0 < v := by
  intro v hv
  simp only [softmaxQ, List.mem_map] at hv
  obtain ⟨w, hw, rfl⟩ := hv
  have hne : xs ≠ [] := List.ne_nil_of_mem hw
  have hS : 0 < (xs.map A.exp).sum := by
    apply List.sum_pos
    · intro a ha
      simp only [List.mem_map] at ha
      obtain ⟨b, _, rfl⟩ := ha
      exact hE b
    · simpa using hne
  exact div_pos (hE w) hS

/-- A softmax row over a nonempty input sums to exactly 1. -/
lemma softmaxQ_sum_one (A : Analytic) (hE : ∀ q, 0 < A.exp q) (xs : List ℚ)
    (hne : xs ≠ []) : (softmaxQ A xs).sum = 1 := by
  have hS : 0 < (xs.map A.exp).sum := by
    apply List.sum_pos
    · intro a ha
      simp only [List.mem_map] at ha
      obtain ⟨b, _, rfl⟩ := ha
      exact hE b
    · simpa using hne
  rw [softmaxQ]
  have : (xs.map (fun v => A.exp v / (xs.map A.exp).sum)).sum =
      (xs.map (fun v => A.exp v * ((xs.map A.exp).sum)⁻¹)).sum := by
    simp [div_eq_mul_inv]
  rw [this, List.sum_map_mul_right, mul_inv_cancel₀ (ne_of_gt hS)]

/-- Softmax preserves the row width. -/
lemma softmaxQ_length (A : Analytic) (xs : List ℚ) :
    (softmaxQ A xs).length = xs.length := by
  simp [softmaxQ]

/-- The top-k values and indices of a row have equal length. -/
lemma topValues_length_eq (xs : List ℚ) (k : Nat) :
    (topValues xs k).length = (topIndices xs k).length := by
  simp [topValues, topIndices]

/-- C5 (amended): in training mode with `use_balance` and without noise,
provided `use_softmax` is true (so every selected score is strictly
positive), the no-noise load vector counts, per expert, exactly the rows of
the batch in which that expert appears in `top_k_indices`.  (As stated for
every `use_softmax` setting the claim is false: see the counterexample.) -/
theorem load_hard_counts_selected (A : Analytic) (g : TopKBalancedNoisyGate)
    (x : List (List ℚ)) (noise : NoiseDraw) (eps : ℚ)
    (hE : ∀ q, 0 < A.exp q) (hsh : WellShaped g)
    (htr : g.training = true) (hb : g.use_balance = true)
    (hn : g.add_noise = false) (hsm : g.use_softmax = true)
    (e : Nat) (he : e < g.num_experts) :
    (loadHardM A g x noise eps).getD e 0 =
      (((topKIndicesM A g x noise eps).filter (fun row => decide (e ∈ row))).length : ℚ) := by
  have hget : (loadHardM A g x noise eps).getD e 0 =
      (((scoresFilteredM A g x noise eps).filter
        (fun row => decide (0 < row.getD e 0))).length : ℚ) := by
    rw [loadHardM, List.getD_eq_getElem?_getD]
    rw [List.getElem?_map]
    simp [List.getElem?_range, he]
  rw [hget]
  norm_cast
  -- both matrices are maps over the logits rows
  have hsc : scoresFilteredM A g x noise eps =
      (logitsM A g x noise eps).map (fun lr =>
        scatterWrites (List.replicate g.num_experts 0)
          (((topIndices lr (kOf g)).take g.num_selects).zip
           (softmaxQ A ((topValues lr (kOf g)).take g.num_selects)))) := by
    rw [scoresFilteredM, topKScoresM]
    rw [if_pos hsm]
    simp only [topKIndicesM, topIndicesM, topKLogitsM, topLogitsM, List.map_map]
    rw [List.zip_map']
    simp [Function.comp]
  have hidx : topKIndicesM A g x noise eps =
      (logitsM A g x noise eps).map (fun lr => (topIndices lr (kOf g)).take g.num_selects) := by
    simp [topKIndicesM, topIndicesM, List.map_map, Function.comp]
  rw [hsc, hidx, List.filter_map, List.filter_map, List.length_map, List.length_map]
  congr 1
  apply List.filter_congr
  intro lr hlr
  have hlen : lr.length = g.num_experts := logitsM_row_length A g x noise eps hsh lr hlr
  obtain ⟨hl, hnd, hbound⟩ := topIndices_spec lr (kOf g)
  simp only [Function.comp]
  rw [decide_eq_decide]
  have hiff := scatterWrites_zeros_pos_iff g.num_experts
    ((topIndices lr (kOf g)).take g.num_selects)
    (softmaxQ A ((topValues lr (kOf g)).take g.num_selects))
    (hnd.sublist (List.take_sublist _ _))
    (fun i hi => hlen ▸ hbound i ((List.take_sublist _ _).mem hi))
    (by rw [softmaxQ_length, List.length_take, List.length_take, topValues_length_eq])
    (softmaxQ_pos A hE _)
    e
  rw [hiff]

/-- Sums of pointwise-added maps split. -/
lemma sum_map_add {α : Type} (l : List α) (f h : α → ℚ) :
    (l.map (fun a => f a + h a)).sum = (l.map f).sum + (l.map h).sum := by
  induction l with
  | nil => simp
  | cons a t ih => simp [ih]; ring

/-- Reading every position of a row of known width reproduces the row. -/
lemma map_getD_range (r : List ℚ) (n : Nat) (h : r.length = n) :
    (List.range n).map (fun e => r.getD e 0) = r := by
  subst h
  apply List.ext_getElem
  · simp
  · intro i h1 h2
    simp [List.getD_eq_getElem?_getD, List.getElem?_eq_getElem h2]

/-- The total of the column sums of a rectangular matrix equals the total of
its row sums. -/
lemma colSumQ_sum (rows : List (List ℚ)) (n : Nat)
    (h : ∀ row ∈ rows, row.length = n) :
    (colSumQ rows n).sum = (rows.map List.sum).sum := by
  induction rows with
  | nil => simp [colSumQ]
  | cons r rs ih =>
    have hr : r.length = n := h r (List.mem_cons_self r rs)
    have hrs := fun z hz => h z (List.mem_cons_of_mem r hz)
    rw [colSumQ]
    simp only [List.map_cons, List.sum_cons]
    rw [sum_map_add]
    have h1 : ((List.range n).map (fun e => r.getD e 0)).sum = r.sum := by
      rw [map_getD_range r n hr]
    rw [h1, ← colSumQ, ih hrs]

/-- Setting one in-range entry changes a row sum by the difference. -/
lemma sum_set (l : List ℚ) : ∀ i : Nat, ∀ a : ℚ, i < l.length →
    (l.set i a).sum = l.sum - l.getD i 0 + a := by
  induction l with
  | nil => intro i a h; simp at h
  | cons hd tl ih =>
    intro i a h
    cases i with
    | zero => simp [List.set]; ring
    | succ j =>
      simp only [List.set, List.sum_cons]
      rw [ih j a (by simpa using h)]
      simp [List.getD_cons_succ]
      ring

/-- Scattering at distinct positions that currently hold zero adds exactly
the sum of the scattered values. -/
lemma scatterWrites_sum (ps : List (Nat × ℚ)) : ∀ acc : List ℚ,
    (ps.map Prod.fst).Nodup →
    (∀ p ∈ ps, p.1 < acc.length ∧ acc.getD p.1 0 = 0) →
    (scatterWrites acc ps).sum = acc.sum + (ps.map Prod.snd).sum := by
  induction ps with
  | nil => intro acc _ _; simp [scatterWrites]
  | cons p rest ih =>
    intro acc hnd hz
    rw [List.map_cons, List.nodup_cons] at hnd
    obtain ⟨hp1, hp0⟩ := hz p (List.mem_cons_self p rest)
    have hrest : ∀ q ∈ rest, q.1 < (acc.set p.1 p.2).length ∧
        (acc.set p.1 p.2).getD q.1 0 = 0 := by
      intro q hq
      obtain ⟨hq1, hq0⟩ := hz q (List.mem_cons_of_mem p hq)
      have hne : p.1 ≠ q.1 := by
        intro hcontra
        exact hnd.1 (hcontra ▸ List.mem_map_of_mem Prod.fst hq)
      constructor
      · rw [List.length_set]; exact hq1
      · rw [List.getD_eq_getElem?_getD, List.getElem?_set_ne hne,
          ← List.getD_eq_getElem?_getD]
        exact hq0
    rw [scatterWrites, ih _ hnd.2 hrest, sum_set acc p.1 p.2 hp1, hp0]
    simp
    ring

/-- Any position of an all-zero row reads zero. -/
lemma replicate_getD (n i : Nat) : (List.replicate n (0:ℚ)).getD i 0 = 0 := by
  rw [List.getD_eq_getElem?_getD, List.getElem?_replicate]
  split <;> rfl

/-- The logits matrix has one row per batch row. -/
lemma logitsM_length (A : Analytic) (g : TopKBalancedNoisyGate) (x : List (List ℚ))
    (noise : NoiseDraw) (eps : ℚ) : (logitsM A g x noise eps).length = x.length := by
  rw [logitsM]
  split
  · simp [List.length_zipWith, logitsGateM, logitsNoiseM, noiseControlM, noiseMmM, linMap]
  · simp [logitsGateM]

/-- For a well-shaped row, the kept top `num_selects` values and indices both
have exactly `num_selects` entries when `num_selects <= num_experts`. -/
lemma topk_take_length (lr : List ℚ) (g : TopKBalancedNoisyGate)
    (hlen : lr.length = g.num_experts) (h2 : g.num_selects ≤ g.num_experts) :
    ((topValues lr (kOf g)).take g.num_selects).length = g.num_selects ∧
    ((topIndices lr (kOf g)).take g.num_selects).length = g.num_selects := by
  obtain ⟨hl, _, _⟩ := topIndices_spec lr (kOf g)
  have hv : (topValues lr (kOf g)).length = min (kOf g) lr.length := by
    rw [topValues_length_eq]; exact hl
  constructor
  · rw [List.length_take, hv, hlen]; simp [kOf]; omega
  · rw [List.length_take, hl, hlen]; simp [kOf]; omega

/-- C6 (amended): when `use_softmax` is true and `1 <= num_selects <=
num_experts`, every row of `top_k_scores` sums to exactly 1 with nonnegative
entries, and (in training mode with `use_balance`) the importance vector sums
to exactly the batch size.  (With `num_selects = 0` the claim fails: see the
counterexample.) -/
theorem softmax_scores_normalized (A : Analytic) (g : TopKBalancedNoisyGate)
    (x : List (List ℚ)) (noise : NoiseDraw) (eps : ℚ)
    (hE : ∀ q, 0 < A.exp q) (hsh : WellShaped g) (hsm : g.use_softmax = true)
    (h1 : 1 ≤ g.num_selects) (h2 : g.num_selects ≤ g.num_experts) :
    (∀ row ∈ topKScoresM A g x noise eps, row.sum = 1 ∧ ∀ v ∈ row, 0 ≤ v) ∧
    (g.training = true → g.use_balance = true →
      (balanceImportanceM A g x noise eps).sum = (x.length : ℚ)) := by
  have hrow : ∀ lr ∈ logitsM A g x noise eps,
      ((topValues lr (kOf g)).take g.num_selects) ≠ [] := by
    intro lr hlr
    have hlen := logitsM_row_length A g x noise eps hsh lr hlr
    have := (topk_take_length lr g hlen h2).1
    intro hcontra
    rw [hcontra] at this
    simp at this
    omega
  constructor
  · intro row hrow2
    rw [topKScoresM, if_pos hsm] at hrow2
    simp only [topKLogitsM, topLogitsM, List.map_map, List.mem_map, Function.comp] at hrow2
    obtain ⟨lr, hlr, rfl⟩ := hrow2
    refine ⟨softmaxQ_sum_one A hE _ (hrow lr hlr), ?_⟩
    intro v hv
    exact le_of_lt (softmaxQ_pos A hE _ v hv)
  · intro htr hb
    have hsc : scoresFilteredM A g x noise eps =
        (logitsM A g x noise eps).map (fun lr =>
          scatterWrites (List.replicate g.num_experts 0)
            (((topIndices lr (kOf g)).take g.num_selects).zip
             (softmaxQ A ((topValues lr (kOf g)).take g.num_selects)))) := by
      rw [scoresFilteredM, topKScoresM, if_pos hsm]
      simp only [topKIndicesM, topIndicesM, topKLogitsM, topLogitsM, List.map_map]
      rw [List.zip_map']
      simp [Function.comp]
    rw [balanceImportanceM, hsc]
    have hcollen : ∀ row ∈ (logitsM A g x noise eps).map (fun lr =>
        scatterWrites (List.replicate g.num_experts 0)
          (((topIndices lr (kOf g)).take g.num_selects).zip
           (softmaxQ A ((topValues lr (kOf g)).take g.num_selects)))),
        row.length = g.num_experts := by
      intro row hr
      simp only [List.mem_map] at hr
      obtain ⟨lr, _, rfl⟩ := hr
      rw [scatterWrites_length, List.length_replicate]
    rw [colSumQ_sum _ _ hcollen, List.map_map]
    have hones : ∀ lr ∈ logitsM A g x noise eps,
        (List.sum ∘ fun lr =>
          scatterWrites (List.replicate g.num_experts 0)
            (((topIndices lr (kOf g)).take g.num_selects).zip
             (softmaxQ A ((topValues lr (kOf g)).take g.num_selects)))) lr = 1 := by
      intro lr hlr
      have hlen := logitsM_row_length A g x noise eps hsh lr hlr
      obtain ⟨hvl, hil⟩ := topk_take_length lr g hlen h2
      obtain ⟨_, hnd, hbound⟩ := topIndices_spec lr (kOf g)
      have hndt : ((topIndices lr (kOf g)).take g.num_selects).Nodup :=
        hnd.sublist (List.take_sublist _ _)
      have hlens : (softmaxQ A ((topValues lr (kOf g)).take g.num_selects)).length =
          ((topIndices lr (kOf g)).take g.num_selects).length := by
        rw [softmaxQ_length, hvl, hil]
      have hfst : ((((topIndices lr (kOf g)).take g.num_selects).zip
          (softmaxQ A ((topValues lr (kOf g)).take g.num_selects)))).map Prod.fst =
          (topIndices lr (kOf g)).take g.num_selects :=
        List.map_fst_zip _ _ (le_of_eq hlens.symm)
      have hz : ∀ p ∈ (((topIndices lr (kOf g)).take g.num_selects).zip
          (softmaxQ A ((topValues lr (kOf g)).take g.num_selects))),
          p.1 < (List.replicate g.num_experts (0:ℚ)).length ∧
          (List.replicate g.num_experts (0:ℚ)).getD p.1 0 = 0 := by
        intro p hp
        have hp1 : p.1 ∈ (topIndices lr (kOf g)).take g.num_selects := by
          rw [← hfst]
          exact List.mem_map_of_mem Prod.fst hp
        refine ⟨?_, replicate_getD _ _⟩
        rw [List.length_replicate, ← hlen]
        exact hbound p.1 ((List.take_sublist _ _).mem hp1)
      simp only [Function.comp]
      rw [scatterWrites_sum _ _ (by rw [hfst]; exact hndt) hz,
        List.map_snd_zip _ _ (le_of_eq hlens),
        softmaxQ_sum_one A hE _ (hrow lr hlr), List.sum_replicate]
      simp
    rw [List.map_congr_left hones]
    simp [List.map_const', List.sum_replicate, logitsM_length, nsmul_eq_mul]

/-- C5 (witness): the amended load-count theorem evaluated on a concrete
softmax-scored training gate. -/
theorem load_hard_counts_selected_witness :
    (loadHardM constAnalytic gSoftLoad [[1]] zeroDraw (1/100)).getD 0 0 =
      (((topKIndicesM constAnalytic gSoftLoad [[1]] zeroDraw (1/100)).filter
        (fun row => decide (0 ∈ row))).length : ℚ) :=
  load_hard_counts_selected constAnalytic gSoftLoad [[1]] zeroDraw (1/100)
    (fun q => by norm_num [constAnalytic]) (by constructor <;> decide)
    rfl rfl rfl rfl 0 (by decide)

/-- C6 (witness): the amended normalization theorem evaluated on a concrete
softmax-scored training gate. -/
theorem softmax_scores_normalized_witness :
    (∀ row ∈ topKScoresM constAnalytic gTrainNoise [[1]] zeroDraw (1/100),
      row.sum = 1 ∧ ∀ v ∈ row, 0 ≤ v) ∧
    (balanceImportanceM constAnalytic gTrainNoise [[1]] zeroDraw (1/100)).sum = 1 := by
  have h := softmax_scores_normalized constAnalytic gTrainNoise [[1]] zeroDraw (1/100)
    (fun q => by norm_num [constAnalytic]) (by constructor <;> decide)
    rfl (by decide) (by decide)
  exact ⟨h.1, by simpa using h.2 rfl rfl⟩

/-- The flattened `top_logits` tensor of a well-shaped gate has
`batch_size * m` entries where `m = min(num_selects + 1, num_experts)`. -/
lemma topLogits_flatten_length (A : Analytic) (g : TopKBalancedNoisyGate)
    (x : List (List ℚ)) (noise : NoiseDraw) (eps : ℚ) (hsh : WellShaped g) :
    ((topLogitsM A g x noise eps).flatten).length = x.length * kOf g := by
  rw [List.length_flatten]
  have hlens : (topLogitsM A g x noise eps).map List.length =
      (logitsM A g x noise eps).map (fun _ => kOf g) := by
    rw [topLogitsM, List.map_map]
    apply List.map_congr_left
    intro lr hlr
    have hlen := logitsM_row_length A g x noise eps hsh lr hlr
    simp only [Function.comp]
    rw [topValues_length_eq, (topIndices_spec lr (kOf g)).1, hlen]
    simp [kOf]
  rw [hlens]
  simp [List.map_const', List.sum_replicate, logitsM_length, smul_eq_mul, Nat.mul_comm]

/-- An out-of-bounds gather position fails. -/
lemma gatherOne_bad (xs : List ℚ) (i : Int) (h : ¬(0 ≤ i ∧ i.toNat < xs.length)) :
    gatherOne xs i = .error "IndexError: gather index out of bounds" := by
  rw [gatherOne, if_neg h]

/-- An in-bounds gather position reads the value. -/
lemma gatherOne_good (xs : List ℚ) (i : Int) (h : 0 ≤ i ∧ i.toNat < xs.length) :
    gatherOne xs i = .ok (xs.getD i.toNat 0) := by
  rw [gatherOne, if_pos h]

/-- A gather containing any out-of-bounds position fails. -/
lemma gatherFlat_bad (xs : List ℚ) (idx : List Int)
    (h : ∃ i ∈ idx, ¬(0 ≤ i ∧ i.toNat < xs.length)) :
    gatherFlat xs idx = .error "IndexError: gather index out of bounds" := by
  induction idx with
  | nil => simp at h
  | cons i rest ih =>
    by_cases hc : 0 ≤ i ∧ i.toNat < xs.length
    · obtain ⟨j, hj, hbad⟩ := h
      rcases List.mem_cons.mp hj with rfl | hjr
      · exact absurd hc hbad
      · rw [gatherFlat, gatherOne_good xs i hc, ih ⟨j, hjr, hbad⟩]
    · rw [gatherFlat, gatherOne_bad xs i hc]

/-- A gather whose positions are all in bounds succeeds. -/
lemma gatherFlat_good (xs : List ℚ) (idx : List Int)
    (h : ∀ i ∈ idx, 0 ≤ i ∧ i.toNat < xs.length) :
    ∃ vs, gatherFlat xs idx = .ok vs := by
  induction idx with
  | nil => exact ⟨[], rfl⟩
  | cons i rest ih =>
    obtain ⟨vs, hvs⟩ := ih (fun j hj => h j (List.mem_cons_of_mem i hj))
    refine ⟨xs.getD i.toNat 0 :: vs, ?_⟩
    rw [gatherFlat, gatherOne_good xs i (h i (List.mem_cons_self i rest)), hvs]

/-- C10 (amended): in training mode with noise and balance enabled, when
`num_selects = num_experts` and the batch is nonempty, the last-row `if_in`
threshold position `batch_size * m - m + num_selects` equals the flattened
top-logit array length and `forward` fails with the gather IndexError;
conversely, when `1 <= num_selects < num_experts`, every threshold position
of both variants is in bounds and `forward` succeeds.  (The claim's converse
as stated, with `num_selects = 0` allowed, is false: see the
counterexample.) -/
theorem noisy_load_threshold_bounds (A : Analytic) (g : TopKBalancedNoisyGate)
    (x : List (List ℚ)) (noise : NoiseDraw) (eps c : ℚ)
    (hsh : WellShaped g) (htr : g.training = true) (hn : g.add_noise = true)
    (hb : g.use_balance = true) :
    (g.num_selects = g.num_experts → x ≠ [] →
      x.length * kOf g - kOf g + g.num_selects =
        ((topLogitsM A g x noise eps).flatten).length ∧
      forward A g x noise eps c = .error "IndexError: gather index out of bounds") ∧
    (1 ≤ g.num_selects → g.num_selects < g.num_experts →
      ∃ r, forward A g x noise eps c = .ok r) := by
  have hflat := topLogits_flatten_length A g x noise eps hsh
  have hlg : (logitsGateM A g x).length = x.length := by simp [logitsGateM]
  constructor
  · intro hsel hne
    have hk : kOf g = g.num_selects := by simp [kOf, hsel]
    have hbatch : 1 ≤ x.length := List.length_pos.mpr hne
    have hkk : kOf g ≤ x.length * kOf g :=
      Nat.le_mul_of_pos_left (kOf g) hbatch
    have hnugget : x.length * kOf g - kOf g + g.num_selects =
        ((topLogitsM A g x noise eps).flatten).length := by
      rw [hflat, ← hk, Nat.sub_add_cancel hkk]
    refine ⟨hnugget, ?_⟩
    -- the last if_in position is out of bounds
    have hlast : ((x.length - 1 : Nat) : Int) * (kOf g : Int) + (g.num_selects : Int) ∈
        thresholdPositionsIfIn g (logitsGateM A g x).length := by
      rw [thresholdPositionsIfIn, hlg]
      exact List.mem_map_of_mem _ (List.mem_range.mpr (by omega))
    have hpos : (((x.length - 1 : Nat) : Int) * (kOf g : Int) + (g.num_selects : Int)) =
        (((x.length - 1) * kOf g + g.num_selects : Nat) : Int) := by push_cast; ring
    have hval : (x.length - 1) * kOf g + g.num_selects = x.length * kOf g := by
      rw [← hk]
      have : x.length - 1 + 1 = x.length := Nat.succ_pred_eq_of_pos hbatch
      calc (x.length - 1) * kOf g + kOf g = (x.length - 1 + 1) * kOf g := by
            rw [Nat.succ_mul]
        _ = x.length * kOf g := by rw [this]
    have hbad : ¬(0 ≤ (((x.length - 1 : Nat) : Int) * (kOf g : Int) + (g.num_selects : Int)) ∧
        (((x.length - 1 : Nat) : Int) * (kOf g : Int) + (g.num_selects : Int)).toNat <
          ((topLogitsM A g x noise eps).flatten).length) := by
      rw [hpos, hflat]
      intro hcontra
      rw [Int.toNat_natCast, hval] at hcontra
      omega
    have herr : gatherFlat ((topLogitsM A g x noise eps).flatten)
        (thresholdPositionsIfIn g (logitsGateM A g x).length) =
        .error "IndexError: gather index out of bounds" :=
      gatherFlat_bad _ _ ⟨_, hlast, hbad⟩
    have hload : loadNoisyM A g x noise eps =
        .error "IndexError: gather index out of bounds" := by
      rw [loadNoisyM]
      simp only [herr, Bind.bind, Except.bind]
    rw [forward_eq_map, gateLossM, htr, hb]
    simp only [Bool.and_self, if_true, hn, if_pos, hload, Bind.bind, Except.bind,
      Except.map]
  · intro h1 hlt
    have hk : kOf g = g.num_selects + 1 := by simp [kOf]; omega
    have hgoodIn : ∀ i ∈ thresholdPositionsIfIn g (logitsGateM A g x).length,
        0 ≤ i ∧ i.toNat < ((topLogitsM A g x noise eps).flatten).length := by
      intro p hp
      rw [thresholdPositionsIfIn, List.mem_map] at hp
      obtain ⟨i, hi, rfl⟩ := hp
      rw [hlg] at hi
      have hi2 := List.mem_range.mp hi
      have hcast : (i : Int) * (kOf g : Int) + (g.num_selects : Int) =
          ((i * kOf g + g.num_selects : Nat) : Int) := by push_cast; ring
      have hik : i * kOf g + kOf g ≤ x.length * kOf g := by
        rw [← Nat.succ_mul]
        exact Nat.mul_le_mul_right (kOf g) hi2
      have hns : g.num_selects < kOf g := by omega
      constructor
      · rw [hcast]; positivity
      · rw [hcast, Int.toNat_natCast, hflat]; omega
    have hgoodOut : ∀ i ∈ thresholdPositionsIfOut g (logitsGateM A g x).length,
        0 ≤ i ∧ i.toNat < ((topLogitsM A g x noise eps).flatten).length := by
      intro p hp
      rw [thresholdPositionsIfOut, List.mem_map] at hp
      obtain ⟨q, hq, rfl⟩ := hp
      rw [thresholdPositionsIfIn, List.mem_map] at hq
      obtain ⟨i, hi, rfl⟩ := hq
      rw [hlg] at hi
      have hi2 := List.mem_range.mp hi
      have hcast : (i : Int) * (kOf g : Int) + (g.num_selects : Int) - 1 =
          ((i * kOf g + g.num_selects - 1 : Nat) : Int) := by
        push_cast [Nat.cast_sub (by omega : 1 ≤ i * kOf g + g.num_selects)]
        ring
      have hik : i * kOf g + kOf g ≤ x.length * kOf g := by
        rw [← Nat.succ_mul]
        exact Nat.mul_le_mul_right (kOf g) hi2
      have hns : g.num_selects < kOf g := by omega
      constructor
      · rw [hcast]; positivity
      · rw [hcast, Int.toNat_natCast, hflat]; omega
    obtain ⟨vs1, hin⟩ := gatherFlat_good _ _ hgoodIn
    obtain ⟨vs2, hout⟩ := gatherFlat_good _ _ hgoodOut
    cases hld : loadNoisyM A g x noise eps with
    | error e =>
      rw [loadNoisyM] at hld
      simp only [hin, hout, Bind.bind, Except.bind] at hld
      exact Except.noConfusion hld
    | ok ld =>
      have hgl : gateLossM A g x noise eps c =
          .ok (some ((cv_squared (balanceImportanceM A g x noise eps) +
            cv_squared ld) * c)) := by
        rw [gateLossM, htr, hb]
        simp only [Bool.and_self, if_true, hn, if_pos, hld, Bind.bind, Except.bind]
      exact ⟨(topKIndicesM A g x noise eps, topKScoresM A g x noise eps,
        some ((cv_squared (balanceImportanceM A g x noise eps) + cv_squared ld) * c)),
        by rw [forward_eq_map, hgl]; rfl⟩

/-- C10 (witness): both halves of the threshold-bounds theorem evaluated on
concrete gates. -/
theorem noisy_load_threshold_bounds_witness :
    forward constAnalytic gFullSelect [[0]] zeroDraw (1/100) (1/100) =
      .error "IndexError: gather index out of bounds" ∧
    (∃ r, forward constAnalytic gTrainNoise [[1]] zeroDraw (1/100) (1/100) = .ok r) := by
  constructor
  · exact ((noisy_load_threshold_bounds constAnalytic gFullSelect [[0]] zeroDraw (1/100) (1/100)
      (by constructor <;> decide) rfl rfl rfl).1 rfl (by decide)).2
  · exact (noisy_load_threshold_bounds constAnalytic gTrainNoise [[1]] zeroDraw (1/100) (1/100)
      (by constructor <;> decide) rfl rfl rfl).2 (by decide) (by decide)

end LlamaMoE
